import Mathlib

/-!
Verification development for the week-data processor
(`src/WeekDataProcessor.py`): a shallow embedding of its data model and
operations, followed by theorems settling the specified properties.

Strings from the source are modelled as Lean `String`s; the character-level
operations (`str.replace`, `str.strip`, substring tests, `strptime`-style
parsing) are embedded as executable functions on `List Char`.
Dates are modelled by proleptic-Gregorian ordinals exactly as in CPython's
`datetime.date.toordinal` (ordinal 1 = 0001-01-01); `datetime + timedelta`
is ordinal addition with the year 1..9999 range check.
-/

namespace WeekDataProcessor

/-! ## Character/string primitives -/

/-- The whitespace characters stripped by Python's `str.strip()`
(ASCII subset; inputs in this development are ASCII). -/
def pyIsSpace (c : Char) : Bool :=
  c == ' ' || c == '\t' || c == '\n' || c == '\r' || c == '\x0b' || c == '\x0c'

/-- Python `str.strip()`: drop whitespace from both ends. -/
def pyStrip (l : List Char) : List Char :=
  ((l.dropWhile pyIsSpace).reverse.dropWhile pyIsSpace).reverse

/-- Fuel-driven worker for `pyReplace` (structural recursion on the fuel,
so that the kernel can evaluate it; the fuel is always at least the length
of the list, which makes the `0, l` branch unreachable for nonempty `l`). -/
def pyReplaceAux (pat rep : List Char) : Nat → List Char → List Char
  | _, [] => []
  | 0, l => l
  | fuel + 1, c :: cs =>
    if pat ≠ [] ∧ pat.isPrefixOf (c :: cs) then
      rep ++ pyReplaceAux pat rep fuel (cs.drop (pat.length - 1))
    else
      c :: pyReplaceAux pat rep fuel cs

/-- Python `str.replace(pat, rep)`: replace every non-overlapping occurrence
of `pat`, scanning left to right.  (For the empty pattern, which the source
never uses, we return the input unchanged.) -/
def pyReplace (pat rep s : List Char) : List Char :=
  pyReplaceAux pat rep s.length s

theorem pyReplaceAux_fuel (pat rep : List Char) :
    ∀ (fuel₁ fuel₂ : Nat) (l : List Char), l.length ≤ fuel₁ → l.length ≤ fuel₂ →
      pyReplaceAux pat rep fuel₁ l = pyReplaceAux pat rep fuel₂ l := by
  intro fuel₁
  induction fuel₁ with
  | zero =>
    intro fuel₂ l h₁ _
    have : l = [] := List.eq_nil_of_length_eq_zero (Nat.le_zero.mp h₁)
    subst this
    cases fuel₂ <;> rfl
  | succ f ih =>
    intro fuel₂ l h₁ h₂
    cases l with
    | nil => cases fuel₂ <;> rfl
    | cons c cs =>
      cases fuel₂ with
      | zero => simp at h₂
      | succ g =>
        simp only [pyReplaceAux]
        split
        · have hd : (cs.drop (pat.length - 1)).length ≤ cs.length := by
            simp only [List.length_drop]; omega
          simp only [List.length_cons] at h₁ h₂
          rw [ih g (cs.drop (pat.length - 1)) (by omega) (by omega)]
        · simp only [List.length_cons] at h₁ h₂
          rw [ih g cs (by omega) (by omega)]

@[simp] theorem pyReplace_nil (pat rep : List Char) : pyReplace pat rep [] = [] := rfl

theorem pyReplace_cons (pat rep : List Char) (c : Char) (cs : List Char) :
    pyReplace pat rep (c :: cs) =
      if pat ≠ [] ∧ pat.isPrefixOf (c :: cs) then
        rep ++ pyReplace pat rep (cs.drop (pat.length - 1))
      else
        c :: pyReplace pat rep cs := by
  show pyReplaceAux pat rep (cs.length + 1) (c :: cs) = _
  simp only [pyReplaceAux]
  split
  · rw [pyReplaceAux_fuel pat rep cs.length (cs.drop (pat.length - 1)).length
      (cs.drop (pat.length - 1)) (by simp only [List.length_drop]; omega) (le_refl _)]
    rfl
  · rfl

/-- Split a character list at every occurrence of the character `c`
(the list-level meaning of Python's `s.split(c)` for a single separator). -/
def splitOnChar (c : Char) : List Char → List (List Char)
  | [] => [[]]
  | x :: xs =>
    if x = c then
      [] :: splitOnChar c xs
    else
      match splitOnChar c xs with
      | [] => [[x]]
      | l :: ls => (x :: l) :: ls

/-- Is `pat` a contiguous sublist of `l`? -/
def isInfixList (pat : List Char) : List Char → Bool
  | [] => pat.isEmpty
  | c :: cs => pat.isPrefixOf (c :: cs) || isInfixList pat cs

/-- Python's substring test `pat in s`. -/
def containsSub (pat s : String) : Bool :=
  isInfixList pat.data s.data

/-- Python `str.upper()` (ASCII letters; the inputs involved are ASCII). -/
def pyUpper (s : String) : String :=
  String.mk (s.data.map Char.toUpper)

/-! ## Dates: CPython `datetime.date` model -/

/-- A calendar date (proleptic Gregorian), as produced by a successful
`datetime.strptime(s, "%d.%m.%Y")`. -/
structure Date where
  year : Nat
  month : Nat
  day : Nat
deriving DecidableEq

def isLeap (y : Nat) : Bool :=
  y % 4 == 0 && (y % 100 != 0 || y % 400 == 0)

def daysInMonth (y m : Nat) : Nat :=
  match m with
  | 1 => 31
  | 2 => if isLeap y then 29 else 28
  | 3 => 31
  | 4 => 30
  | 5 => 31
  | 6 => 30
  | 7 => 31
  | 8 => 31
  | 9 => 30
  | 10 => 31
  | 11 => 30
  | 12 => 31
  | _ => 0

/-- Days in year `y` strictly before month `m`. -/
def daysBeforeMonth (y m : Nat) : Nat :=
  match m with
  | 1 => 0
  | 2 => 31
  | 3 => if isLeap y then 60 else 59
  | 4 => if isLeap y then 91 else 90
  | 5 => if isLeap y then 121 else 120
  | 6 => if isLeap y then 152 else 151
  | 7 => if isLeap y then 182 else 181
  | 8 => if isLeap y then 213 else 212
  | 9 => if isLeap y then 244 else 243
  | 10 => if isLeap y then 274 else 273
  | 11 => if isLeap y then 305 else 304
  | 12 => if isLeap y then 335 else 334
  | _ => 0

/-- CPython `date.toordinal()`: 0001-01-01 is ordinal 1. -/
def toOrdinal (d : Date) : Int :=
  ((365 * (d.year - 1) + (d.year - 1) / 4 - (d.year - 1) / 100
      + (d.year - 1) / 400 + daysBeforeMonth d.year d.month + d.day : Nat) : Int)

/-- Ordinal of 9999-12-31, the largest date CPython represents
(`datetime.date.max.toordinal()`). -/
def maxOrdinal : Int := 3652059

/-- Inverse of `toOrdinal` on the valid range (the standard
days-to-civil computation over 400-year eras). -/
def fromOrdinal (o : Int) : Date :=
  let z := o + 305
  let era := z.fdiv 146097
  let doe := (z - era * 146097).toNat
  let yoe := (doe - doe / 1460 + doe / 36524 - doe / 146096) / 365
  let doy := doe - (365 * yoe + yoe / 4 - yoe / 100)
  let mp := (5 * doy + 2) / 153
  let dd := doy - (153 * mp + 2) / 5 + 1
  let mm := if mp < 10 then mp + 3 else mp - 9
  let yy : Int := (yoe : Int) + era * 400 + (if mm ≤ 2 then 1 else 0)
  ⟨yy.toNat, mm, dd⟩

/-- Zero-pad a numeral to width 2 (strftime `%d`, `%m`). -/
def pad2 (n : Nat) : String :=
  if n < 10 then "0" ++ toString n else toString n

/-- Zero-pad a numeral to width 4 (strftime `%Y`). -/
def pad4 (n : Nat) : String :=
  if n < 10 then "000" ++ toString n
  else if n < 100 then "00" ++ toString n
  else if n < 1000 then "0" ++ toString n
  else toString n

/-- CPython `date.strftime("%d.%m.%Y")`. -/
def renderDate (d : Date) : String :=
  pad2 d.day ++ "." ++ pad2 d.month ++ "." ++ pad4 d.year

def isDigitChar (c : Char) : Bool :=
  '0' ≤ c && c ≤ '9'

def digitsToNat (l : List Char) : Nat :=
  l.foldl (fun a c => 10 * a + (c.toNat - 48)) 0

/-- The `%d` field of `strptime`: CPython matches the regular expression
`3[01]|[12]\d|0[1-9]|[1-9]`, i.e. one digit 1-9 or two digits 01-31. -/
def parseDayField (l : List Char) : Option Nat :=
  if l.all isDigitChar ∧ (l.length = 1 ∨ l.length = 2) then
    let v := digitsToNat l
    if 1 ≤ v ∧ v ≤ 31 then some v else none
  else none

/-- The `%m` field of `strptime`: one digit 1-9 or two digits 01-12. -/
def parseMonthField (l : List Char) : Option Nat :=
  if l.all isDigitChar ∧ (l.length = 1 ∨ l.length = 2) then
    let v := digitsToNat l
    if 1 ≤ v ∧ v ≤ 12 then some v else none
  else none

/-- The `%Y` field of `strptime`: exactly four digits. -/
def parseYearField (l : List Char) : Option Nat :=
  if l.all isDigitChar ∧ l.length = 4 then some (digitsToNat l) else none

/-- CPython `datetime.strptime(s, "%d.%m.%Y")`, as a partial function:
`none` models the `ValueError` raised on any mismatch (wrong shape, field
out of range, or an impossible calendar date such as 30.02). -/
def parseDate (s : String) : Option Date :=
  match splitOnChar '.' s.data with
  | [ds, ms, ys] =>
    match parseDayField ds, parseMonthField ms, parseYearField ys with
    | some d, some m, some y =>
      if 1 ≤ y ∧ d ≤ daysInMonth y m then some ⟨y, m, d⟩ else none
    | _, _, _ => none
  | _ => none

/-- ISO-8601 calendar week number of a date (Monday-start; week 1 is the week
containing the year's first Thursday), as returned by
`datetime.isocalendar()[1]`. -/
def isoWeek (dt : Date) : Nat :=
  let o := toOrdinal dt
  let dow := (o - 1).emod 7 + 1
  let thu := o - dow + 4
  let isoY := (fromOrdinal thu).year
  let jan1 := toOrdinal ⟨isoY, 1, 1⟩
  (thu - jan1).toNat / 7 + 1

/-! ## Data model of the processor -/

/-- An event sent to the logging collaborator: `error` for a date parse
failure (carrying the offending date string, cf. `logger.error` in
`get_week`), `warning` for a filled-in missing day (cf. `logger.warning`
in `initialize_weeks_data`). -/
inductive LogEvent where
  | error (dateStr : String)
  | warning (day : String) (week : Int)
deriving DecidableEq

/-- The value part of a day entry: the dict
`\x7b"Art": ..., "Inhalt": ...\x7d` built in `initialize_weeks_data`. -/
structure DayData where
  art : String
  inhalt : String
deriving DecidableEq

/-- One element of a week bucket: the single-key dict
`\x7brow['Tag'].upper(): \x7b"Art": ..., "Inhalt": ...\x7d\x7d`. -/
structure Entry where
  day : String
  data : DayData
deriving DecidableEq

/-- An input row of the DataFrame, with the fields the processor reads.
`beschreibung` is the optional `Beschreibung` column (`row.get` with
default `""`); the other three are required. -/
structure Row where
  datum : String
  tag : String
  taetigkeit : String
  beschreibung : Option String
deriving DecidableEq

/-- The `weeks_data` dict: a Python dict with `Int` keys, modelled as an
insertion-ordered association list (Python dicts preserve insertion
order, and `process_all_weeks` iterates them in that order). -/
abbrev WeeksData := List (Int × List Entry)

/-- The settings collaborator: a string-keyed mapping. -/
abbrev Settings := List (String × String)

/-- Python `mapping.get(k, d)`. -/
def pyGet (s : Settings) (k d : String) : String :=
  match s.find? (fun p => p.1 == k) with
  | some p => p.2
  | none => d

/-- Python `mapping[k]` / `mapping.get(k)`: `none` models `KeyError`. -/
def pyLookup (s : Settings) (k : String) : Option String :=
  match s.find? (fun p => p.1 == k) with
  | some p => some p.2
  | none => none

/-! ## Source embedding: week bucketing (`get_week`,
`get_activity_type`, `initialize_weeks_data`) -/

/-- Source `get_week` (lines 29-36): ISO calendar week of a `dd.mm.yyyy`
string; on a parse failure it logs one error event and returns the
sentinel `-1` instead of raising.  The second component is the list of
events emitted to the logging collaborator during the call. -/
def get_week (date_str : String) : Int × List LogEvent :=
  match parseDate date_str with
  | some d => ((isoWeek d : Nat), [])
  | none => (-1, [LogEvent.error date_str])

/-- Source `get_activity_type` (line 48):
`activitys.get(activity, activitys.get('NA', 'TAETIGKEIT_UNBEKANNT'))`.
The static `activitys` mapping lives in the (external) `ConfigManager`
module and is passed here as an explicit parameter. -/
def get_activity_type (activitys : List (String × String)) (activity : String) : String :=
  match activitys.find? (fun p => p.1 == activity) with
  | some p => p.2
  | none =>
    match activitys.find? (fun p => p.1 == "NA") with
    | some p => p.2
    | none => "TAETIGKEIT_UNBEKANNT"

/-- The `row_entry` built for one DataFrame row (source lines 68-73). -/
def mk_row_entry (activitys : List (String × String)) (r : Row) : Entry :=
  { day := pyUpper r.tag
    data :=
      { art := get_activity_type activitys (pyUpper r.taetigkeit)
        inhalt := r.beschreibung.getD "" } }

/-- Python `weeks_data.setdefault(w, []).append(e)`: append `e` to the bucket of
the first matching key, or add a new key at the end (Python dict
insertion order). -/
def addToWeek (wd : WeeksData) (w : Int) (e : Entry) : WeeksData :=
  match wd with
  | [] => [(w, [e])]
  | (k, es) :: rest =>
    if k = w then (k, es ++ [e]) :: rest else (k, es) :: addToWeek rest w e

/-- The relative week the loop assigns to a row:
`current_week - start_week + 1` (source line 65). -/
def relWeekRow (startWeek : Int) (r : Row) : Int :=
  (get_week r.datum).1 - startWeek + 1

/-- One iteration of the aggregation loop of `initialize_weeks_data`
(source lines 62-75), threading the bucket dict and the emitted log
events. -/
def agg_step (activitys : List (String × String)) (startWeek : Int)
    (acc : WeeksData × List LogEvent) (r : Row) : WeeksData × List LogEvent :=
  (addToWeek acc.1 (relWeekRow startWeek r) (mk_row_entry activitys r),
    acc.2 ++ (get_week r.datum).2)

/-- The aggregation loop of `initialize_weeks_data` (source lines 62-75). -/
def aggregate (activitys : List (String × String)) (startWeek : Int)
    (rows : List Row) : WeeksData × List LogEvent :=
  rows.foldl (agg_step activitys startWeek) ([], [])

/-- The missing-day completion for one bucket (source lines 78-84):
`set(days) - existing_days`, one empty entry and one warning per missing
day.  Python iterates the difference as a hash set, in an unspecified
order; we iterate it in the order of the configured `days` list.  All
properties proved below are insensitive to this order. -/
def fillWeek (days : List String) (w : Int) (es : List Entry) :
    List Entry × List LogEvent :=
  let missing := days.filter (fun d => !es.any (fun e => e.day == d))
  (es ++ missing.map (fun d => ⟨d, ⟨"", ""⟩⟩),
    missing.map (fun d => LogEvent.warning d w))

/-- The missing-day completion pass over all buckets. -/
def fill_missing_days (days : List String) (wd : WeeksData) :
    WeeksData × List LogEvent :=
  (wd.map (fun p => (p.1, (fillWeek days p.1 p.2).1)),
    (wd.map (fun p => (fillWeek days p.1 p.2).2)).flatten)

/-- Source `initialize_weeks_data` (lines 50-86), also run by `__init__`.
`none` models the `IndexError` raised by `self.data['Datum'].iloc[0]` on
an empty input table.  The result pairs the finished `weeks_data` with
the log events emitted (start-week parse, per-row parses, fill warnings,
in program order). -/
def initialize_weeks_data (days : List String) (activitys : List (String × String))
    (rows : List Row) : Option (WeeksData × List LogEvent) :=
  match rows with
  | [] => none
  | r0 :: _ =>
    let sw := get_week r0.datum
    let agg := aggregate activitys sw.1 rows
    let filled := fill_missing_days days agg.1
    some (filled.1, sw.2 ++ agg.2 ++ filled.2)

/-- The bucket stored for week `w` (first matching key, like a Python
dict lookup). -/
def lookupWeek (wd : WeeksData) (w : Int) : List Entry :=
  match wd.find? (fun p => p.1 == w) with
  | some p => p.2
  | none => []

/-- How many entries of a bucket carry day name `d`. -/
def countDay (es : List Entry) (d : String) : Nat :=
  es.countP (fun e => e.day == d)

/-- The order in which `process_all_weeks` (source lines 168-173) visits
the week buckets: Python dict iteration order = insertion order. -/
def process_order (wd : WeeksData) : List Int :=
  wd.map Prod.fst

/-! ## Source embedding: substitution phase (`format_content`,
`calculate_week_range`, `replace_placeholders_for_day`,
`process_week_placeholders`, `process_all_weeks`) -/

/-- Source `format_content` (lines 140-151):
strip the school marker and whitespace; if anything remains, remove
commas and every occurrence of dash-space, turn each newline into a new
bulleted line, and prefix the first line with the bullet marker. -/
def format_content (content : String) : String :=
  let c := pyStrip (pyReplace "Berufsschule".data [] content.data)
  if c = [] then ""
  else
    String.mk
      ("-   ".data ++
        pyReplace "\n".data "\n-   ".data
          (pyReplace "- ".data [] (pyReplace ",".data [] c)))

/-- Source `calculate_week_range` (lines 153-166):
`strptime(start_date) + timedelta(weeks=week_offset)` and four more days,
both rendered with `strftime("%d.%m.%Y")`.  `none` models the
`ValueError` of an unparsable start date (line 164 is not guarded by a
`try`) or the `OverflowError` of a date outside years 1..9999. -/
def calculate_week_range (start_date : String) (week_offset : Int) :
    Option (String × String) :=
  match parseDate start_date with
  | none => none
  | some d =>
    let so := toOrdinal d + 7 * week_offset
    if 1 ≤ so ∧ so ≤ maxOrdinal then
      let eo := so + 4
      if 1 ≤ eo ∧ eo ≤ maxOrdinal then
        some (renderDate (fromOrdinal so), renderDate (fromOrdinal eo))
      else none
    else none

/-- The day-scoped content placeholder (source line 127). -/
def placeholder_content (day : String) (week : Int) : String :=
  "\x7b" ++ day ++ "_INHALT" ++ toString week ++ "\x7d"

/-- The day-scoped hours placeholder (source line 128). -/
def placeholder_hours (day : String) (week : Int) : String :=
  "\x7b" ++ day ++ "_STUNDEN" ++ toString week ++ "\x7d"

/-- The day-scoped activity-type placeholder (source line 129). -/
def placeholder_type (day : String) (week : Int) : String :=
  "\x7b" ++ day ++ "_ART" ++ toString week ++ "\x7d"

/-- The `general_placeholders` mapping (source lines 98-103), given the
computed start and end date strings. -/
def general_placeholders (settings : Settings) (week : Int)
    (start_date end_date : String) : List (String × String) :=
  [("\x7bNAME\x7d", pyGet settings "name" "N/A"),
    ("\x7bABJ\x7d", pyGet settings "year" "N/A"),
    ("\x7bDATUM_START" ++ toString week ++ "\x7d", start_date),
    ("\x7bDATUM_ENDE" ++ toString week ++ "\x7d", end_date)]

/-- Source `replace_placeholders_for_day` (lines 116-138).  Returns the
three `(placeholder, value)` substitutions handed to the document
collaborator, together with the day dict after the in-place update of
its `Art` field (line 133).  `none` models the `KeyError` of
`self.settings['default_hours']` (line 137), which has no default. -/
def replace_placeholders_for_day (settings : Settings) (day : String)
    (week : Int) (data : DayData) : Option (List (String × String) × DayData) :=
  let content := format_content data.inhalt
  let newArt :=
    if containsSub "Berufsschule" data.inhalt then "Berufsschule" else data.art
  match pyLookup settings "default_hours" with
  | none => none
  | some hours =>
    some
      ([(placeholder_content day week, content),
          (placeholder_hours day week, hours),
          (placeholder_type day week, newArt)],
        ⟨newArt, data.inhalt⟩)

/-- The first entry of the bucket carrying `day`:
`next((entry.get(day, \x7b\x7d) for entry in entries if day in entry), \x7b\x7d)`
(source line 113).  The empty dict default becomes `⟨"", ""⟩`. -/
def find_day_data (entries : List Entry) (day : String) : DayData :=
  match entries.find? (fun e => e.day == day) with
  | some e => e.data
  | none => ⟨"", ""⟩

/-- Write `d` back into the first entry of the bucket carrying `day`
(the in-place dict mutation on line 133 acts on the object returned by
`find_day_data`; when no entry matches, the mutation hits the temporary
empty dict and the bucket is unchanged). -/
def update_first (entries : List Entry) (day : String) (d : DayData) : List Entry :=
  match entries with
  | [] => []
  | e :: rest =>
    if e.day == day then { e with data := d } :: rest
    else e :: update_first rest day d

/-- The inner `for day in days` loop of `process_week_placeholders`
(source lines 111-114) for one cell: look up the day's data, substitute
its three placeholders, and thread the (possibly mutated) bucket. -/
def process_cell_days (settings : Settings) (week : Int) :
    List String → List Entry → Option (List (String × String) × List Entry)
  | [], entries => some ([], entries)
  | day :: rest, entries =>
    match replace_placeholders_for_day settings day week (find_day_data entries day) with
    | none => none
    | some (subs, d) =>
      match process_cell_days settings week rest (update_first entries day d) with
      | none => none
      | some (subs2, entries2) => some (subs ++ subs2, entries2)

/-- The cell loop of `process_week_placeholders` (source lines 106-114)
over `cells` document cells: per cell, first the general placeholders,
then the per-day substitutions.  The document structure beyond the
number of visited cells is owned by the document collaborator. -/
def process_cells (settings : Settings) (days : List String) (week : Int)
    (general : List (String × String)) :
    Nat → List Entry → Option (List (String × String) × List Entry)
  | 0, entries => some ([], entries)
  | n + 1, entries =>
    match process_cell_days settings week days entries with
    | none => none
    | some (subs, entries1) =>
      match process_cells settings days week general n entries1 with
      | none => none
      | some (subs2, entries2) => some (general ++ subs ++ subs2, entries2)

/-- Source `process_week_placeholders` (lines 88-114) for one week:
compute the week range from the first record's date, build the general
placeholders, then run the cell loop. -/
def process_week_placeholders (settings : Settings) (days : List String)
    (first_date : String) (week : Int) (entries : List Entry) (cells : Nat) :
    Option (List (String × String) × List Entry) :=
  match calculate_week_range first_date (week - 1) with
  | none => none
  | some r =>
    process_cells settings days week
      (general_placeholders settings week r.1 r.2) cells entries

/-- Source `process_all_weeks` (lines 168-173): iterate the week buckets
in dict order, substituting each; returns all emitted substitutions and
the final state of `weeks_data`. -/
def process_all_weeks (settings : Settings) (days : List String)
    (first_date : String) (cells : Nat) :
    WeeksData → Option (List (String × String) × WeeksData)
  | [] => some ([], [])
  | (w, es) :: rest =>
    match process_week_placeholders settings days first_date w es cells with
    | none => none
    | some (subs, es1) =>
      match process_all_weeks settings days first_date cells rest with
      | none => none
      | some (subs2, rest1) => some (subs ++ subs2, (w, es1) :: rest1)

/-! ## Spec-modelled configuration -/

/-- Modelled from the spec: `ConfigManager`'s `days` — the ordered set of
recognized day names, upper-cased as used in the placeholder keys
(spec §6, §8: five configured weekdays, e.g. `MONTAG`). The
`ConfigManager` module itself is not part of the provided sources. -/
def days_config : List String :=
  ["MONTAG", "DIENSTAG", "MITTWOCH", "DONNERSTAG", "FREITAG"]

/-- Modelled from the spec: a concrete instance of `ConfigManager`'s
static `activitys` mapping (spec §4.2: description → type label with an
`NA` fallback key), used to instantiate witnesses; the theorems
themselves are parameterized over an arbitrary mapping. -/
def activitys_config : List (String × String) :=
  [("PROGRAMMIEREN", "Entwicklung"), ("NA", "Sonstiges")]

/-! ## Lemmas: bucket structure -/

@[simp] theorem lookupWeek_nil (w : Int) : lookupWeek ([] : WeeksData) w = [] := rfl

theorem lookupWeek_cons (k : Int) (es : List Entry) (tl : WeeksData) (w : Int) :
    lookupWeek ((k, es) :: tl) w = if k = w then es else lookupWeek tl w := by
  unfold lookupWeek
  rcases eq_or_ne k w with h | h
  · rw [List.find?_cons_of_pos _ (by simpa using h), if_pos h]
  · rw [List.find?_cons_of_neg _ (by simpa using h), if_neg h]

theorem lookupWeek_addToWeek (wd : WeeksData) (w w' : Int) (e : Entry) :
    lookupWeek (addToWeek wd w e) w' =
      if w' = w then lookupWeek wd w' ++ [e] else lookupWeek wd w' := by
  induction wd with
  | nil =>
    simp only [addToWeek, lookupWeek_cons, lookupWeek_nil]
    rcases eq_or_ne w' w with h | h
    · rw [if_pos h.symm, if_pos h]
      rfl
    · rw [if_neg (fun hh => h hh.symm), if_neg h]
  | cons hd tl ih =>
    obtain ⟨k, es⟩ := hd
    simp only [addToWeek]
    rcases eq_or_ne k w with hk | hk
    · subst hk
      rw [if_pos rfl]
      simp only [lookupWeek_cons]
      rcases eq_or_ne k w' with h | h
      · rw [if_pos h, if_pos h.symm, if_pos h]
      · rw [if_neg h, if_neg (fun hh => h hh.symm), if_neg h]
    · rw [if_neg hk]
      rcases eq_or_ne k w' with h | h
      · subst h
        simp [lookupWeek_cons, hk]
      · simp only [lookupWeek_cons, ih, if_neg h]

theorem lookupWeek_agg_fold (activitys : List (String × String)) (sw : Int) :
    ∀ (rows : List Row) (acc : WeeksData × List LogEvent) (w : Int),
      lookupWeek (rows.foldl (agg_step activitys sw) acc).1 w =
        lookupWeek acc.1 w ++
          (rows.filter (fun r => relWeekRow sw r == w)).map (mk_row_entry activitys) := by
  intro rows
  induction rows with
  | nil => intro acc w; simp
  | cons r rs ih =>
    intro acc w
    simp only [List.foldl_cons, List.filter_cons]
    rw [ih]
    have hstep : (agg_step activitys sw acc r).1 =
        addToWeek acc.1 (relWeekRow sw r) (mk_row_entry activitys r) := rfl
    rw [hstep, lookupWeek_addToWeek]
    by_cases h : relWeekRow sw r = w
    · simp [h, List.append_assoc]
    · have h' : ¬ w = relWeekRow sw r := fun hh => h hh.symm
      simp [h, h']

theorem keys_addToWeek (wd : WeeksData) (w : Int) (e : Entry) :
    (addToWeek wd w e).map Prod.fst =
      if w ∈ wd.map Prod.fst then wd.map Prod.fst else wd.map Prod.fst ++ [w] := by
  induction wd with
  | nil => simp [addToWeek]
  | cons hd tl ih =>
    obtain ⟨k, es⟩ := hd
    rcases eq_or_ne k w with h | h
    · subst h
      simp [addToWeek]
    · simp only [addToWeek, if_neg h, List.map_cons, ih]
      have hne : ¬ w = k := fun hh => h hh.symm
      by_cases hm : w ∈ tl.map Prod.fst
      · simp [hm]
      · simp [hne, hm]

theorem keys_nodup_fold (activitys : List (String × String)) (sw : Int) :
    ∀ (rows : List Row) (acc : WeeksData × List LogEvent),
      (acc.1.map Prod.fst).Nodup →
      ((rows.foldl (agg_step activitys sw) acc).1.map Prod.fst).Nodup := by
  intro rows
  induction rows with
  | nil => intro acc h; exact h
  | cons r rs ih =>
    intro acc h
    simp only [List.foldl_cons]
    apply ih
    have hstep : (agg_step activitys sw acc r).1 =
        addToWeek acc.1 (relWeekRow sw r) (mk_row_entry activitys r) := rfl
    rw [hstep, keys_addToWeek]
    by_cases hm : relWeekRow sw r ∈ acc.1.map Prod.fst
    · simpa [hm] using h
    · simp only [if_neg hm]
      simp [List.nodup_append, h, hm]

theorem lookupWeek_of_mem :
    ∀ (wd : WeeksData), (wd.map Prod.fst).Nodup →
      ∀ (w : Int) (es : List Entry), (w, es) ∈ wd → lookupWeek wd w = es := by
  intro wd
  induction wd with
  | nil => intro _ w es h; simp at h
  | cons hd tl ih =>
    intro hnd w es hmem
    obtain ⟨k, es'⟩ := hd
    simp only [List.map_cons, List.nodup_cons] at hnd
    cases List.mem_cons.mp hmem with
    | inl h =>
      obtain ⟨h1, h2⟩ := Prod.mk.inj h
      rw [lookupWeek_cons, if_pos h1.symm]
      exact h2.symm
    | inr h =>
      have hw : w ∈ tl.map Prod.fst := List.mem_map.mpr ⟨(w, es), h, rfl⟩
      have hk : ¬ k = w := fun hh => hnd.1 (hh ▸ hw)
      rw [lookupWeek_cons, if_neg hk]
      exact ih hnd.2 w es h

theorem keys_fill (days : List String) (wd : WeeksData) :
    (fill_missing_days days wd).1.map Prod.fst = wd.map Prod.fst := by
  simp [fill_missing_days, List.map_map, Function.comp]

theorem mem_fill (days : List String) (wd : WeeksData) (w : Int) (es : List Entry)
    (h : (w, es) ∈ (fill_missing_days days wd).1) :
    ∃ es₀, (w, es₀) ∈ wd ∧ es = (fillWeek days w es₀).1 := by
  simp only [fill_missing_days, List.mem_map] at h
  obtain ⟨p, hp, heq⟩ := h
  obtain ⟨p1, p2⟩ := p
  obtain ⟨h1, h2⟩ := Prod.mk.inj heq
  subst h1
  exact ⟨p2, hp, h2.symm⟩

theorem lookupWeek_fill (days : List String) (wd : WeeksData) (w : Int) :
    lookupWeek (fill_missing_days days wd).1 w =
      match wd.find? (fun p => p.1 == w) with
      | some p => (fillWeek days p.1 p.2).1
      | none => [] := by
  induction wd with
  | nil => rfl
  | cons hd tl ih =>
    obtain ⟨k, es⟩ := hd
    simp only [fill_missing_days, List.map_cons] at ih ⊢
    by_cases h : k = w
    · subst h
      rw [lookupWeek_cons, if_pos rfl, List.find?_cons_of_pos _ (by simp)]
    · rw [lookupWeek_cons, if_neg h,
        List.find?_cons_of_neg _ (by simpa using h)]
      exact ih

theorem mem_lookupWeek_fill (days : List String) (wd : WeeksData) (w : Int)
    (e : Entry) (h : e ∈ lookupWeek wd w) :
    e ∈ lookupWeek (fill_missing_days days wd).1 w := by
  rw [lookupWeek_fill]
  cases hf : wd.find? (fun p => p.1 == w) with
  | none =>
    rw [lookupWeek, hf] at h
    simp at h
  | some p =>
    have hp : p.1 = w := by
      have := List.find?_some hf
      simpa [beq_iff_eq] using this
    have hlk : lookupWeek wd w = p.2 := by rw [lookupWeek, hf]
    rw [hlk] at h
    simp only [fillWeek]
    exact List.mem_append_left _ h

/-- Unfolding of `initialize_weeks_data` on a nonempty table. -/
theorem initialize_eq (days : List String) (activitys : List (String × String))
    (r0 : Row) (rs : List Row) :
    initialize_weeks_data days activitys (r0 :: rs) =
      some
        ((fill_missing_days days
            (aggregate activitys (get_week r0.datum).1 (r0 :: rs)).1).1,
          (get_week r0.datum).2 ++
            (aggregate activitys (get_week r0.datum).1 (r0 :: rs)).2 ++
            (fill_missing_days days
              (aggregate activitys (get_week r0.datum).1 (r0 :: rs)).1).2) := rfl

/-! ## Lemmas: effect of the substitution phase on `weeks_data` -/

/-- How one day entry may change across the substitution phase: day name
and content are untouched, and the activity type is either untouched or
overwritten with the school override when the content contains the
marker (the in-place `data['Art']` assignment on source line 133). -/
def dayMutated (old new : Entry) : Prop :=
  new.day = old.day ∧ new.data.inhalt = old.data.inhalt ∧
    (new.data.art = old.data.art ∨
      (containsSub "Berufsschule" old.data.inhalt = true ∧
        new.data.art = "Berufsschule"))

/-- `weeks_data` before and after the substitution phase: same keys in
the same order, buckets related entrywise by `dayMutated`. -/
def weeksSim (old new : WeeksData) : Prop :=
  List.Forall₂ (fun p q => q.1 = p.1 ∧ List.Forall₂ dayMutated p.2 q.2) old new

theorem dayMutated_refl (e : Entry) : dayMutated e e :=
  ⟨rfl, rfl, Or.inl rfl⟩

theorem dayMutated_trans {a b c : Entry} (h₁ : dayMutated a b) (h₂ : dayMutated b c) :
    dayMutated a c := by
  obtain ⟨hd₁, hi₁, ha₁⟩ := h₁
  obtain ⟨hd₂, hi₂, ha₂⟩ := h₂
  refine ⟨hd₂.trans hd₁, hi₂.trans hi₁, ?_⟩
  rcases ha₂ with h | ⟨hc, hb⟩
  · rcases ha₁ with h' | ⟨hc', hb'⟩
    · exact Or.inl (h.trans h')
    · exact Or.inr ⟨hc', h.trans hb'⟩
  · exact Or.inr ⟨hi₁ ▸ hc, hb⟩

theorem bucketSim_refl (es : List Entry) : List.Forall₂ dayMutated es es := by
  induction es with
  | nil => exact List.Forall₂.nil
  | cons e rest ih => exact List.Forall₂.cons (dayMutated_refl e) ih

theorem bucketSim_trans :
    ∀ {a b c : List Entry}, List.Forall₂ dayMutated a b →
      List.Forall₂ dayMutated b c → List.Forall₂ dayMutated a c := by
  intro a b c h₁
  induction h₁ generalizing c with
  | nil => intro h₂; cases h₂; exact List.Forall₂.nil
  | cons hab htl ih =>
    intro h₂
    cases h₂ with
    | cons hbc htl₂ => exact List.Forall₂.cons (dayMutated_trans hab hbc) (ih htl₂)

/-- What a successful `replace_placeholders_for_day` call does to the
day dict it was handed. -/
theorem rpfd_data (settings : Settings) (day : String) (week : Int)
    (d : DayData) (subs : List (String × String)) (d' : DayData)
    (h : replace_placeholders_for_day settings day week d = some (subs, d')) :
    d'.inhalt = d.inhalt ∧
      (d'.art = d.art ∨
        (containsSub "Berufsschule" d.inhalt = true ∧ d'.art = "Berufsschule")) := by
  unfold replace_placeholders_for_day at h
  cases hl : pyLookup settings "default_hours" with
  | none => rw [hl] at h; exact absurd h (by simp)
  | some hv =>
    rw [hl] at h
    simp only [Option.some.injEq] at h
    obtain ⟨-, hd⟩ := Prod.mk.inj h
    subst hd
    by_cases hc : containsSub "Berufsschule" d.inhalt
    · exact ⟨rfl, Or.inr ⟨hc, by simp [hc]⟩⟩
    · exact ⟨rfl, Or.inl (by simp [hc])⟩

theorem bucketSim_update_first (settings : Settings) (week : Int) :
    ∀ (entries : List Entry) (day : String) (subs : List (String × String)) (d' : DayData),
      replace_placeholders_for_day settings day week (find_day_data entries day) =
        some (subs, d') →
      List.Forall₂ dayMutated entries (update_first entries day d') := by
  intro entries
  induction entries with
  | nil => intro day subs d' _; exact List.Forall₂.nil
  | cons e rest ih =>
    intro day subs d' h
    by_cases he : e.day = day
    · have hfd : find_day_data (e :: rest) day = e.data := by
        unfold find_day_data
        rw [List.find?_cons_of_pos _ (by simpa using he)]
      rw [hfd] at h
      obtain ⟨hi, ha⟩ := rpfd_data _ _ _ _ _ _ h
      unfold update_first
      rw [if_pos (by simpa using he)]
      exact List.Forall₂.cons ⟨rfl, hi, ha⟩ (bucketSim_refl rest)
    · have hfd : find_day_data (e :: rest) day = find_day_data rest day := by
        unfold find_day_data
        rw [List.find?_cons_of_neg _ (by simpa using he)]
      rw [hfd] at h
      unfold update_first
      rw [if_neg (by simpa using he)]
      exact List.Forall₂.cons (dayMutated_refl e) (ih day subs d' h)

theorem bucketSim_cell_days (settings : Settings) (week : Int) :
    ∀ (days : List String) (entries : List Entry)
      (subs : List (String × String)) (entries' : List Entry),
      process_cell_days settings week days entries = some (subs, entries') →
      List.Forall₂ dayMutated entries entries' := by
  intro days
  induction days with
  | nil =>
    intro entries subs entries' h
    simp only [process_cell_days, Option.some.injEq] at h
    obtain ⟨-, he⟩ := Prod.mk.inj h
    rw [← he]
    exact bucketSim_refl entries
  | cons day rest ih =>
    intro entries subs entries' h
    cases h1 : replace_placeholders_for_day settings day week (find_day_data entries day) with
    | none => simp [process_cell_days, h1] at h
    | some p =>
      obtain ⟨subs1, d1⟩ := p
      cases h2 : process_cell_days settings week rest (update_first entries day d1) with
      | none => simp [process_cell_days, h1, h2] at h
      | some q =>
        obtain ⟨subs2, e2⟩ := q
        simp only [process_cell_days, h1, h2, Option.some.injEq] at h
        obtain ⟨-, he⟩ := Prod.mk.inj h
        rw [← he]
        exact bucketSim_trans (bucketSim_update_first settings week entries day subs1 d1 h1)
          (ih _ subs2 e2 h2)

theorem bucketSim_cells (settings : Settings) (days : List String) (week : Int)
    (general : List (String × String)) :
    ∀ (n : Nat) (entries : List Entry)
      (subs : List (String × String)) (entries' : List Entry),
      process_cells settings days week general n entries = some (subs, entries') →
      List.Forall₂ dayMutated entries entries' := by
  intro n
  induction n with
  | zero =>
    intro entries subs entries' h
    simp only [process_cells, Option.some.injEq] at h
    obtain ⟨-, he⟩ := Prod.mk.inj h
    rw [← he]
    exact bucketSim_refl entries
  | succ m ih =>
    intro entries subs entries' h
    cases h1 : process_cell_days settings week days entries with
    | none => simp [process_cells, h1] at h
    | some p =>
      obtain ⟨subs1, e1⟩ := p
      cases h2 : process_cells settings days week general m e1 with
      | none => simp [process_cells, h1, h2] at h
      | some q =>
        obtain ⟨subs2, e2⟩ := q
        simp only [process_cells, h1, h2, Option.some.injEq] at h
        obtain ⟨-, he⟩ := Prod.mk.inj h
        rw [← he]
        exact bucketSim_trans (bucketSim_cell_days settings week days entries subs1 e1 h1)
          (ih e1 subs2 e2 h2)

theorem process_all_weeks_sim (settings : Settings) (days : List String)
    (first_date : String) (cells : Nat) :
    ∀ (wd : WeeksData) (subs : List (String × String)) (wd' : WeeksData),
      process_all_weeks settings days first_date cells wd = some (subs, wd') →
      weeksSim wd wd' := by
  intro wd
  induction wd with
  | nil =>
    intro subs wd' h
    simp only [process_all_weeks, Option.some.injEq] at h
    obtain ⟨-, he⟩ := Prod.mk.inj h
    rw [← he]
    exact List.Forall₂.nil
  | cons p rest ih =>
    intro subs wd' h
    obtain ⟨w, es⟩ := p
    cases h1 : process_week_placeholders settings days first_date w es cells with
    | none => simp [process_all_weeks, h1] at h
    | some q =>
      obtain ⟨subs1, es1⟩ := q
      cases h2 : process_all_weeks settings days first_date cells rest with
      | none => simp [process_all_weeks, h1, h2] at h
      | some r =>
        obtain ⟨subs2, rest1⟩ := r
        simp only [process_all_weeks, h1, h2, Option.some.injEq] at h
        obtain ⟨-, he⟩ := Prod.mk.inj h
        rw [← he]
        refine List.Forall₂.cons ⟨rfl, ?_⟩ (ih subs2 rest1 h2)
        cases h3 : calculate_week_range first_date (w - 1) with
        | none => simp [process_week_placeholders, h3] at h1
        | some rng =>
          simp only [process_week_placeholders, h3] at h1
          exact bucketSim_cells settings days w _ cells es subs1 es1 h1

/-! ## Lemmas: settings and totality of the substitution phase -/

theorem pyGet_of_lookup_none (s : Settings) (k d : String)
    (h : pyLookup s k = none) : pyGet s k d = d := by
  unfold pyLookup at h
  unfold pyGet
  cases hf : s.find? (fun p => p.1 == k) with
  | none => rfl
  | some p => rw [hf] at h; exact absurd h (by simp)

theorem rpfd_isSome (settings : Settings) (day : String) (week : Int)
    (d : DayData) (hv : String)
    (hl : pyLookup settings "default_hours" = some hv) :
    (replace_placeholders_for_day settings day week d).isSome := by
  simp [replace_placeholders_for_day, hl]

theorem cell_days_isSome (settings : Settings) (week : Int) (hv : String)
    (hl : pyLookup settings "default_hours" = some hv) :
    ∀ (days : List String) (entries : List Entry),
      (process_cell_days settings week days entries).isSome := by
  intro days
  induction days with
  | nil => intro entries; rfl
  | cons day rest ih =>
    intro entries
    obtain ⟨p, hp⟩ := Option.isSome_iff_exists.mp
      (rpfd_isSome settings day week (find_day_data entries day) hv hl)
    obtain ⟨subs1, d1⟩ := p
    obtain ⟨q, hq⟩ := Option.isSome_iff_exists.mp (ih (update_first entries day d1))
    obtain ⟨subs2, e2⟩ := q
    simp [process_cell_days, hp, hq]

theorem cells_isSome (settings : Settings) (days : List String) (week : Int)
    (general : List (String × String)) (hv : String)
    (hl : pyLookup settings "default_hours" = some hv) :
    ∀ (n : Nat) (entries : List Entry),
      (process_cells settings days week general n entries).isSome := by
  intro n
  induction n with
  | zero => intro entries; rfl
  | succ m ih =>
    intro entries
    obtain ⟨p, hp⟩ := Option.isSome_iff_exists.mp
      (cell_days_isSome settings week hv hl days entries)
    obtain ⟨subs1, e1⟩ := p
    obtain ⟨q, hq⟩ := Option.isSome_iff_exists.mp (ih e1)
    obtain ⟨subs2, e2⟩ := q
    simp [process_cells, hp, hq]

theorem all_weeks_isSome (settings : Settings) (days : List String)
    (first_date : String) (cells : Nat) (hv : String)
    (hl : pyLookup settings "default_hours" = some hv) :
    ∀ (wd : WeeksData),
      (∀ w ∈ process_order wd, (calculate_week_range first_date (w - 1)).isSome) →
      (process_all_weeks settings days first_date cells wd).isSome := by
  intro wd
  induction wd with
  | nil => intro _; rfl
  | cons p rest ih =>
    intro hcwr
    obtain ⟨w, es⟩ := p
    obtain ⟨rng, hrng⟩ := Option.isSome_iff_exists.mp
      (hcwr w (by simp [process_order]))
    obtain ⟨q, hq⟩ := Option.isSome_iff_exists.mp
      (cells_isSome settings days w (general_placeholders settings w rng.1 rng.2)
        hv hl cells es)
    obtain ⟨subs1, es1⟩ := q
    obtain ⟨r, hr⟩ := Option.isSome_iff_exists.mp
      (ih (fun w' hw' => hcwr w' (by simp [process_order] at hw' ⊢; exact Or.inr hw')))
    obtain ⟨subs2, rest1⟩ := r
    simp [process_all_weeks, process_week_placeholders, hrng, hq, hr]

theorem all_weeks_fails_without_hours (settings : Settings) (first_date : String)
    (hl : pyLookup settings "default_hours" = none)
    (day : String) (drest : List String) (n : Nat) (w : Int) (es : List Entry)
    (rest : WeeksData) (rng : String × String)
    (hc : calculate_week_range first_date (w - 1) = some rng) :
    process_all_weeks settings (day :: drest) first_date (n + 1)
      ((w, es) :: rest) = none := by
  have hr : replace_placeholders_for_day settings day w (find_day_data es day) = none := by
    simp [replace_placeholders_for_day, hl]
  simp [process_all_weeks, process_week_placeholders, hc, process_cells,
    process_cell_days, hr]

/-! ## Lemmas: content formatting -/

/-- Join a list of lines with a separator (the inverse of `splitOnChar`). -/
def joinWith (sep : List Char) : List (List Char) → List Char
  | [] => []
  | [x] => x
  | x :: y :: ys => x ++ sep ++ joinWith sep (y :: ys)

theorem splitOnChar_ne_nil (c : Char) (l : List Char) : splitOnChar c l ≠ [] := by
  cases l with
  | nil => simp [splitOnChar]
  | cons x xs =>
    unfold splitOnChar
    by_cases h : x = c
    · simp [h]
    · simp only [if_neg h]
      cases splitOnChar c xs <;> simp

theorem pyReplace_single_cons (c : Char) (rep : List Char) (x : Char) (xs : List Char) :
    pyReplace [c] rep (x :: xs) =
      if x = c then rep ++ pyReplace [c] rep xs else x :: pyReplace [c] rep xs := by
  rw [pyReplace_cons]
  by_cases h : x = c
  · subst h
    simp [List.isPrefixOf]
  · have hcx : ¬ c = x := fun hh => h hh.symm
    simp [List.isPrefixOf, h, hcx]

/-- The bulleting step of `format_content`: prefixing with the marker and
expanding each newline is the same as bulleting every line. -/
theorem bullet_lines (l : List Char) :
    "-   ".data ++ pyReplace "\n".data ("\n-   ".data) l =
      joinWith "\n".data
        ((splitOnChar '\n' l).map (fun s => "-   ".data ++ s)) := by
  have hnl : "\n".data = ['\n'] := rfl
  have hrep : "\n-   ".data = '\n' :: "-   ".data := rfl
  rw [hnl, hrep]
  induction l with
  | nil => simp [splitOnChar, joinWith]
  | cons x xs ih =>
    rw [pyReplace_single_cons]
    by_cases h : x = '\n'
    · subst h
      simp only [splitOnChar, if_pos rfl, List.map_cons]
      obtain ⟨s, ss, hss⟩ := List.exists_cons_of_ne_nil (splitOnChar_ne_nil '\n' xs)
      rw [hss] at ih ⊢
      simp only [List.map_cons, joinWith] at ih ⊢
      rw [← ih]
      simp [List.append_assoc]
    · rw [if_neg h]
      simp only [splitOnChar, if_neg h]
      obtain ⟨s, ss, hss⟩ := List.exists_cons_of_ne_nil (splitOnChar_ne_nil '\n' xs)
      rw [hss] at ih ⊢
      cases ss with
      | nil =>
        simp only [List.map_cons, List.map_nil, joinWith] at ih ⊢
        have hx : pyReplace ['\n'] ('\n' :: "-   ".data) xs = s :=
          List.append_cancel_left ih
        rw [hx]
      | cons t ts =>
        simp only [List.map_cons, joinWith] at ih ⊢
        have hx : pyReplace ['\n'] ('\n' :: "-   ".data) xs =
            s ++ '\n' :: joinWith ['\n']
              (("-   ".data ++ t) :: List.map (fun s => "-   ".data ++ s) ts) := by
          have h2 : "-   ".data ++ pyReplace ['\n'] ('\n' :: "-   ".data) xs =
              "-   ".data ++ (s ++ '\n' :: joinWith ['\n']
                (("-   ".data ++ t) :: List.map (fun s => "-   ".data ++ s) ts)) := by
            rw [ih]
            simp [List.append_assoc]
          exact List.append_cancel_left h2
        rw [hx]
        simp [List.append_assoc]

/-- The spec-level description of `format_content`, amended to what the
code does: after marker removal and trimming, remove commas and every
occurrence of the two-character sequence dash-space, then render each
newline-separated line as a bulleted line with leading marker. -/
def format_content_by_lines (content : String) : String :=
  let c := pyStrip (pyReplace "Berufsschule".data [] content.data)
  if c = [] then ""
  else
    String.mk
      (joinWith "\n".data
        ((splitOnChar '\n' (pyReplace "- ".data [] (pyReplace ",".data [] c))).map
          (fun l => "-   ".data ++ l)))

/-- The claim's wording of the formatting step, taken literally: strip
commas, strip only the LEADING dash-prefix sequences of each line, and
bullet each line.  (`format_content` actually strips every occurrence of
dash-space, also in the middle of a line.) -/
def stripLeadingDashes : List Char → List Char
  | '-' :: ' ' :: rest => stripLeadingDashes rest
  | l => l

/-- The formatting function the claim describes (leading-only
dash-prefix stripping); compared against `format_content`. -/
def claimed_format (content : String) : String :=
  let c := pyStrip (pyReplace "Berufsschule".data [] content.data)
  if c = [] then ""
  else
    String.mk
      (joinWith "\n".data
        ((splitOnChar '\n' (pyReplace ",".data [] c)).map
          (fun l => "-   ".data ++ stripLeadingDashes l)))

theorem format_content_eq_by_lines (content : String) :
    format_content content = format_content_by_lines content := by
  unfold format_content format_content_by_lines
  by_cases h : pyStrip (pyReplace "Berufsschule".data [] content.data) = []
  · simp [h]
  · simp only [if_neg h]
    have := bullet_lines
      (pyReplace "- ".data []
        (pyReplace ",".data [] (pyStrip (pyReplace "Berufsschule".data [] content.data))))
    exact congrArg String.mk this

/-! ## Lemmas: counting entries per day -/

theorem countP_le_one_of_pairwise {α : Type} (p : α → Bool) :
    ∀ (l : List α), l.Pairwise (fun a b => ¬(p a = true ∧ p b = true)) →
      l.countP p ≤ 1 := by
  intro l
  induction l with
  | nil => intro _; simp
  | cons a tl ih =>
    intro h
    rcases List.pairwise_cons.mp h with ⟨ha, htl⟩
    rw [List.countP_cons]
    by_cases hp : p a = true
    · have h0 : tl.countP p = 0 :=
        List.countP_eq_zero.mpr (fun b hb hpb => ha b hb ⟨hp, hpb⟩)
      simp [h0, hp]
    · simpa [hp] using ih htl

theorem countDay_agg (activitys : List (String × String)) (sw : Int)
    (rows : List Row) (w : Int) (d : String) :
    countDay (lookupWeek (aggregate activitys sw rows).1 w) d =
      rows.countP (fun r => (pyUpper r.tag == d) && (relWeekRow sw r == w)) := by
  unfold aggregate countDay
  rw [lookupWeek_agg_fold]
  simp only [lookupWeek_nil, List.nil_append]
  rw [List.countP_map, List.countP_filter]
  rfl

theorem countDay_fill (days : List String) (hnd : days.Nodup) (w : Int)
    (es : List Entry) (d : String) (hd : d ∈ days) (hle : countDay es d ≤ 1) :
    countDay (fillWeek days w es).1 d = 1 := by
  unfold fillWeek countDay at *
  rw [List.countP_append, List.countP_map]
  by_cases hp : es.any (fun e => e.day == d)
  · have h1 : 0 < es.countP (fun e => e.day == d) := by
      rcases List.any_eq_true.mp hp with ⟨e, he, hpe⟩
      exact List.countP_pos_iff.mpr ⟨e, he, hpe⟩
    have h0 : ((days.filter (fun d' => !es.any (fun e => e.day == d'))).countP
        (((fun e : Entry => e.day == d)) ∘ (fun d' => (⟨d', ⟨"", ""⟩⟩ : Entry)))) = 0 := by
      rw [List.countP_eq_zero]
      intro x hx hpx
      have hxd : x = d := by simpa using hpx
      subst hxd
      rcases List.mem_filter.mp hx with ⟨-, hcond⟩
      simp [hp] at hcond
    rw [h0]
    omega
  · have h1 : es.countP (fun e => e.day == d) = 0 := by
      rw [List.countP_eq_zero]
      intro e he hpe
      exact hp (List.any_eq_true.mpr ⟨e, he, hpe⟩)
    have h2 : ((days.filter (fun d' => !es.any (fun e => e.day == d'))).countP
        (((fun e : Entry => e.day == d)) ∘ (fun d' => (⟨d', ⟨"", ""⟩⟩ : Entry)))) = 1 := by
      have hcong : (days.filter (fun d' => !es.any (fun e => e.day == d'))).countP
          (((fun e : Entry => e.day == d)) ∘ (fun d' => (⟨d', ⟨"", ""⟩⟩ : Entry))) =
            days.countP (fun x => (x == d) && !es.any (fun e => e.day == x)) := by
        rw [List.countP_filter]
        rfl
      rw [hcong]
      have hcong2 : days.countP (fun x => (x == d) && !es.any (fun e => e.day == x)) =
          days.countP (fun x => x == d) := by
        apply List.countP_congr
        intro x hx
        constructor
        · intro hb
          simp only [Bool.and_eq_true] at hb
          exact hb.1
        · intro hb
          have hxd : x = d := by simpa using hb
          subst hxd
          simp [hp]
        -- absent case: the filter condition holds at d
      rw [hcong2, ← List.count_eq_countP]
      exact List.count_eq_one_of_mem hnd hd
    rw [h1, h2]

/-! ## Lemmas: processing order of week keys -/

theorem keys_sorted_fold (activitys : List (String × String)) (sw : Int) :
    ∀ (rows : List Row) (acc : WeeksData × List LogEvent),
      List.Pairwise (· ≤ ·) (rows.map (relWeekRow sw)) →
      List.Pairwise (· < ·) (acc.1.map Prod.fst) →
      (∀ k ∈ acc.1.map Prod.fst, ∀ v ∈ rows.map (relWeekRow sw), k ≤ v) →
      List.Pairwise (· < ·)
        ((rows.foldl (agg_step activitys sw) acc).1.map Prod.fst) := by
  intro rows
  induction rows with
  | nil => intro acc _ hacc _; exact hacc
  | cons r rs ih =>
    intro acc hsorted hacc hbound
    simp only [List.map_cons, List.pairwise_cons] at hsorted
    obtain ⟨hw0, htl⟩ := hsorted
    simp only [List.foldl_cons]
    have hkeys : (agg_step activitys sw acc r).1.map Prod.fst =
        if relWeekRow sw r ∈ acc.1.map Prod.fst then acc.1.map Prod.fst
        else acc.1.map Prod.fst ++ [relWeekRow sw r] := keys_addToWeek _ _ _
    apply ih
    · exact htl
    · rw [hkeys]
      by_cases hm : relWeekRow sw r ∈ acc.1.map Prod.fst
      · rw [if_pos hm]; exact hacc
      · rw [if_neg hm]
        rw [List.pairwise_append]
        refine ⟨hacc, List.pairwise_singleton _ _, ?_⟩
        intro a ha b hb
        have hb' : b = relWeekRow sw r := by simpa using hb
        subst hb'
        have hle : a ≤ relWeekRow sw r := hbound a ha (relWeekRow sw r) (by simp)
        exact lt_of_le_of_ne hle (fun hh => hm (hh ▸ ha))
    · intro k hk v hv
      rw [hkeys] at hk
      by_cases hm : relWeekRow sw r ∈ acc.1.map Prod.fst
      · rw [if_pos hm] at hk
        exact hbound k hk v (by simp; right; simpa using hv)
      · rw [if_neg hm] at hk
        rcases List.mem_append.mp hk with hk | hk
        · exact hbound k hk v (by simp; right; simpa using hv)
        · have hk' : k = relWeekRow sw r := by simpa using hk
          subst hk'
          exact hw0 v (by simpa using hv)

/-- Every row's entry ends up in the bucket of its relative week
(aggregation appends it there; the missing-day fill only appends further
entries behind it). -/
theorem mem_lookup_init (days : List String) (activitys : List (String × String))
    (r0 : Row) (rs : List Row) (wd : WeeksData) (lg : List LogEvent)
    (hinit : initialize_weeks_data days activitys (r0 :: rs) = some (wd, lg))
    (r : Row) (hr : r ∈ r0 :: rs) :
    mk_row_entry activitys r ∈ lookupWeek wd (relWeekRow (get_week r0.datum).1 r) := by
  rw [initialize_eq] at hinit
  simp only [Option.some.injEq] at hinit
  obtain ⟨hwd, -⟩ := Prod.mk.inj hinit
  subst hwd
  apply mem_lookupWeek_fill
  unfold aggregate
  rw [lookupWeek_agg_fold]
  simp only [lookupWeek_nil, List.nil_append]
  exact List.mem_map.mpr ⟨r, List.mem_filter.mpr ⟨hr, by simp⟩, rfl⟩

/-! ## Concrete inputs used in counterexamples and witnesses -/

/-- Two rows with the same relative week and the same day name. -/
def c1_rows : List Row :=
  [⟨"01.04.2024", "Montag", "x", none⟩, ⟨"01.04.2024", "Montag", "y", none⟩]

/-- Five consecutive weekday rows, one per configured day. -/
def c1w_rows : List Row :=
  [⟨"01.04.2024", "Montag", "x", none⟩, ⟨"02.04.2024", "Dienstag", "x", none⟩,
    ⟨"03.04.2024", "Mittwoch", "x", none⟩, ⟨"04.04.2024", "Donnerstag", "x", none⟩,
    ⟨"05.04.2024", "Freitag", "x", none⟩]

/-- The completed week bucket produced by `c1w_rows`. -/
def c1w_bucket : List Entry :=
  [⟨"MONTAG", ⟨"TAETIGKEIT_UNBEKANNT", ""⟩⟩, ⟨"DIENSTAG", ⟨"TAETIGKEIT_UNBEKANNT", ""⟩⟩,
    ⟨"MITTWOCH", ⟨"TAETIGKEIT_UNBEKANNT", ""⟩⟩, ⟨"DONNERSTAG", ⟨"TAETIGKEIT_UNBEKANNT", ""⟩⟩,
    ⟨"FREITAG", ⟨"TAETIGKEIT_UNBEKANNT", ""⟩⟩]

/-- One row whose content contains the school marker while its activity
classifies as something else. -/
def c2_rows : List Row :=
  [⟨"01.04.2024", "Montag", "Programmieren", some "Berufsschule Mathe"⟩]

/-- `weeks_data` after initialization of `c2_rows`. -/
def c2_wd : WeeksData :=
  [(1, [⟨"MONTAG", ⟨"Entwicklung", "Berufsschule Mathe"⟩⟩, ⟨"DIENSTAG", ⟨"", ""⟩⟩,
      ⟨"MITTWOCH", ⟨"", ""⟩⟩, ⟨"DONNERSTAG", ⟨"", ""⟩⟩, ⟨"FREITAG", ⟨"", ""⟩⟩])]

/-- `weeks_data` after the substitution phase has run on `c2_wd`: the
Monday entry's type has been overwritten in place. -/
def c2_wd' : WeeksData :=
  [(1, [⟨"MONTAG", ⟨"Berufsschule", "Berufsschule Mathe"⟩⟩, ⟨"DIENSTAG", ⟨"", ""⟩⟩,
      ⟨"MITTWOCH", ⟨"", ""⟩⟩, ⟨"DONNERSTAG", ⟨"", ""⟩⟩, ⟨"FREITAG", ⟨"", ""⟩⟩])]

/-- A parseable first row followed by a row with an unparsable date. -/
def c3_rows : List Row :=
  [⟨"01.04.2024", "Montag", "x", none⟩, ⟨"BAD", "Dienstag", "x", none⟩]

/-- `weeks_data` after initialization of `c3_rows` with an empty
configured day set: the unparsable row is bucketed at relative week
`-1 - 14 + 1 = -14`. -/
def c3_wd : WeeksData :=
  [(1, [⟨"MONTAG", ⟨"TAETIGKEIT_UNBEKANNT", ""⟩⟩]),
    (-14, [⟨"DIENSTAG", ⟨"TAETIGKEIT_UNBEKANNT", ""⟩⟩])]

/-- Two rows in reverse week order: the second row's week precedes the
first row's week. -/
def c7_rows : List Row :=
  [⟨"08.04.2024", "Montag", "x", none⟩, ⟨"01.04.2024", "Dienstag", "x", none⟩]

/-- Two rows in ascending week order. -/
def c7w_rows : List Row :=
  [⟨"01.04.2024", "Montag", "x", none⟩, ⟨"08.04.2024", "Montag", "y", none⟩]

/-- `weeks_data` after initialization of `c7w_rows` with the one-day
configured set `["MONTAG"]`. -/
def c7w_wd : WeeksData :=
  [(1, [⟨"MONTAG", ⟨"TAETIGKEIT_UNBEKANNT", ""⟩⟩]),
    (2, [⟨"MONTAG", ⟨"TAETIGKEIT_UNBEKANNT", ""⟩⟩])]

/-! ## Claim theorems -/

/-- C10: processor construction (which runs `initialize_weeks_data`) is
total exactly on nonempty input tables: for an empty table it fails
(the `IndexError` of `data['Datum'].iloc[0]`, modelled by `none`), and
for any nonempty table of well-formed rows it returns normally. -/
theorem init_empty_vs_nonempty :
    (∀ (days : List String) (activitys : List (String × String)),
      initialize_weeks_data days activitys [] = none) ∧
    (∀ (days : List String) (activitys : List (String × String)) (r : Row) (rs : List Row),
      (initialize_weeks_data days activitys (r :: rs)).isSome) :=
  ⟨fun _ _ => rfl, fun _ _ _ _ => rfl⟩

/-- C3: `get_week` on an unparsable date logs exactly one error event and
returns the sentinel `-1` instead of raising; on a parseable date it
returns the ISO-8601 week number and logs nothing; the sentinel is not
filtered downstream, so the record is still bucketed at relative week
`-1 - start_week + 1`. -/
theorem get_week_sentinel :
    (∀ s : String, parseDate s = none → get_week s = (-1, [LogEvent.error s])) ∧
    (∀ (s : String) (d : Date), parseDate s = some d →
      get_week s = (((isoWeek d : Nat) : Int), [])) ∧
    (∀ (days : List String) (activitys : List (String × String)) (r0 : Row)
        (rs : List Row) (wd : WeeksData) (lg : List LogEvent) (r : Row),
      initialize_weeks_data days activitys (r0 :: rs) = some (wd, lg) →
      r ∈ r0 :: rs →
      parseDate r.datum = none →
      mk_row_entry activitys r ∈ lookupWeek wd (-1 - (get_week r0.datum).1 + 1)) := by
  refine ⟨?_, ?_, ?_⟩
  · intro s h
    unfold get_week
    rw [h]
  · intro s d h
    unfold get_week
    rw [h]
  · intro days activitys r0 rs wd lg r hinit hr hparse
    have hmem := mem_lookup_init days activitys r0 rs wd lg hinit r hr
    have hw : relWeekRow (get_week r0.datum).1 r = -1 - (get_week r0.datum).1 + 1 := by
      unfold relWeekRow get_week
      rw [hparse]
    rw [hw] at hmem
    exact hmem

theorem get_week_sentinel_witness :
    get_week "32.01.2024" = (-1, [LogEvent.error "32.01.2024"]) ∧
    get_week "01.04.2024" = (((isoWeek ⟨2024, 4, 1⟩ : Nat) : Int), []) ∧
    mk_row_entry [] ⟨"BAD", "Dienstag", "x", none⟩ ∈
      lookupWeek c3_wd
        (-1 - (get_week (⟨"01.04.2024", "Montag", "x", none⟩ : Row).datum).1 + 1) :=
  ⟨get_week_sentinel.1 "32.01.2024" (by decide),
    get_week_sentinel.2.1 "01.04.2024" ⟨2024, 4, 1⟩ (by decide),
    get_week_sentinel.2.2 [] [] ⟨"01.04.2024", "Montag", "x", none⟩
      [⟨"BAD", "Dienstag", "x", none⟩] c3_wd [LogEvent.error "BAD"]
      ⟨"BAD", "Dienstag", "x", none⟩ (by decide) (by decide) (by decide)⟩

/-- C4: when all dates parse, every record lands in the bucket with index
`ISO_week(record.date) - ISO_week(first_record.date) + 1`; in particular
the first record lands in relative week 1. -/
theorem bucket_index_formula (days : List String) (activitys : List (String × String))
    (r0 : Row) (rs : List Row) (wd : WeeksData) (lg : List LogEvent) (d0 : Date)
    (hinit : initialize_weeks_data days activitys (r0 :: rs) = some (wd, lg))
    (hd0 : parseDate r0.datum = some d0) :
    (∀ r ∈ r0 :: rs, ∀ dr : Date, parseDate r.datum = some dr →
      mk_row_entry activitys r ∈
        lookupWeek wd (((isoWeek dr : Nat) : Int) - ((isoWeek d0 : Nat) : Int) + 1)) ∧
    mk_row_entry activitys r0 ∈ lookupWeek wd 1 := by
  have main : ∀ r ∈ r0 :: rs, ∀ dr : Date, parseDate r.datum = some dr →
      mk_row_entry activitys r ∈
        lookupWeek wd (((isoWeek dr : Nat) : Int) - ((isoWeek d0 : Nat) : Int) + 1) := by
    intro r hr dr hdr
    have hmem := mem_lookup_init days activitys r0 rs wd lg hinit r hr
    have hw : relWeekRow (get_week r0.datum).1 r =
        ((isoWeek dr : Nat) : Int) - ((isoWeek d0 : Nat) : Int) + 1 := by
      unfold relWeekRow get_week
      rw [hdr, hd0]
    rw [hw] at hmem
    exact hmem
  refine ⟨main, ?_⟩
  have h1 := main r0 (List.mem_cons_self _ _) d0 hd0
  simpa using h1

theorem bucket_index_formula_witness :
    mk_row_entry [] ⟨"01.04.2024", "Montag", "x", none⟩ ∈
      lookupWeek [(1, [⟨"MONTAG", ⟨"TAETIGKEIT_UNBEKANNT", ""⟩⟩])] 1 :=
  (bucket_index_formula ["MONTAG"] [] ⟨"01.04.2024", "Montag", "x", none⟩ []
    [(1, [⟨"MONTAG", ⟨"TAETIGKEIT_UNBEKANNT", ""⟩⟩])] [] ⟨2024, 4, 1⟩
    (by decide) (by decide)).2

/-- C5 counterexample: the claim says only LEADING dash-prefix sequences
are stripped, but `format_content` removes every occurrence of
dash-space, including in the middle of a line: on `"a - b"` the code
yields `"-   a b"` while the claimed behavior yields `"-   a - b"`. -/
theorem format_content_cex :
    format_content "a - b" = "-   a b" ∧
    claimed_format "a - b" = "-   a - b" ∧
    format_content "a - b" ≠ claimed_format "a - b" :=
  ⟨by decide, by decide, by decide⟩

/-- C5 (amended): `format_content` returns `""` when the content is empty
after removing the school marker and trimming; otherwise it strips
commas and EVERY occurrence of the dash-space sequence and renders each
line as a bulleted line with leading marker `"-   "` (the first line
prefixed the same way); in particular `format_content "" = ""` and
`format_content "foo,bar\nbaz" = "-   foobar\n-   baz"`. -/
theorem format_content_amended :
    (∀ content : String, format_content content = format_content_by_lines content) ∧
    format_content "" = "" ∧
    format_content "foo,bar\nbaz" = "-   foobar\n-   baz" :=
  ⟨format_content_eq_by_lines, by decide, by decide⟩

/-- C6: the activity-type value substituted for the `ART` placeholder is
the fixed override literal whenever the raw content contains the school
marker, regardless of the classified type; otherwise it is the entry's
classified type unchanged. -/
theorem art_override (settings : Settings) (day : String) (week : Int) (d : DayData)
    (subs : List (String × String)) (d' : DayData)
    (h : replace_placeholders_for_day settings day week d = some (subs, d')) :
    (placeholder_type day week,
      if containsSub "Berufsschule" d.inhalt then "Berufsschule" else d.art) ∈ subs ∧
    d'.art = (if containsSub "Berufsschule" d.inhalt then "Berufsschule" else d.art) := by
  unfold replace_placeholders_for_day at h
  cases hl : pyLookup settings "default_hours" with
  | none => rw [hl] at h; exact absurd h (by simp)
  | some hv =>
    rw [hl] at h
    simp only [Option.some.injEq] at h
    obtain ⟨hs, hd⟩ := Prod.mk.inj h
    subst hs
    subst hd
    exact ⟨by simp, rfl⟩

theorem art_override_witness :
    (placeholder_type "MONTAG" 1,
      if containsSub "Berufsschule" "Berufsschule Mathe" then "Berufsschule"
      else "Entwicklung") ∈
      [("\x7bMONTAG_INHALT1\x7d", "-   Mathe"), ("\x7bMONTAG_STUNDEN1\x7d", "8"),
        ("\x7bMONTAG_ART1\x7d", "Berufsschule")] :=
  (art_override [("default_hours", "8")] "MONTAG" 1 ⟨"Entwicklung", "Berufsschule Mathe"⟩
    [("\x7bMONTAG_INHALT1\x7d", "-   Mathe"), ("\x7bMONTAG_STUNDEN1\x7d", "8"),
      ("\x7bMONTAG_ART1\x7d", "Berufsschule")]
    ⟨"Berufsschule", "Berufsschule Mathe"⟩ (by decide)).1

/-- C1 counterexample: with two records for the same (relative week,
day), the bucket keeps both entries — the configured day `MONTAG` occurs
twice in the completed week-1 bucket, not exactly once. -/
theorem weeks_complete_cex :
    (initialize_weeks_data days_config activitys_config c1_rows).map
        (fun p => p.1.map (fun b => (b.1, countDay b.2 "MONTAG"))) =
      some [(1, 2)] ∧
    "MONTAG" ∈ days_config :=
  ⟨by decide, by decide⟩

/-- C1 (amended): after initialization of a nonempty table in which no
two rows share the same (calendar week, upper-cased day name), every
week bucket contains exactly one entry per configured day — no
configured day is absent and none occurs twice.  (Duplicate (week, day)
input rows coexist in the bucket, so the restriction is necessary.) -/
theorem weeks_complete_unique (days : List String) (activitys : List (String × String))
    (r0 : Row) (rs : List Row) (wd : WeeksData) (lg : List LogEvent)
    (hinit : initialize_weeks_data days activitys (r0 :: rs) = some (wd, lg))
    (hnd : days.Nodup)
    (hpw : (r0 :: rs).Pairwise (fun r₁ r₂ =>
      ¬((get_week r₁.datum).1 = (get_week r₂.datum).1 ∧
        pyUpper r₁.tag = pyUpper r₂.tag))) :
    ∀ p ∈ wd, ∀ d ∈ days, countDay p.2 d = 1 := by
  intro p hp d hd
  rw [initialize_eq] at hinit
  simp only [Option.some.injEq] at hinit
  obtain ⟨hwd, -⟩ := Prod.mk.inj hinit
  subst hwd
  obtain ⟨pw, pes⟩ := p
  obtain ⟨es₀, hmem, hes⟩ := mem_fill days _ pw pes hp
  have hnodup :
      ((aggregate activitys (get_week r0.datum).1 (r0 :: rs)).1.map Prod.fst).Nodup := by
    unfold aggregate
    exact keys_nodup_fold activitys _ (r0 :: rs) ([], []) (by simp)
  have hlk : lookupWeek (aggregate activitys (get_week r0.datum).1 (r0 :: rs)).1 pw = es₀ :=
    lookupWeek_of_mem _ hnodup pw es₀ hmem
  have hle : countDay es₀ d ≤ 1 := by
    rw [← hlk, countDay_agg]
    apply countP_le_one_of_pairwise
    refine List.Pairwise.imp ?_ hpw
    intro a b hab hP
    obtain ⟨ha, hb⟩ := hP
    simp only [Bool.and_eq_true, beq_iff_eq] at ha hb
    refine hab ⟨?_, ha.1.trans hb.1.symm⟩
    have h1 := ha.2
    have h2 := hb.2
    unfold relWeekRow at h1 h2
    omega
  simp only
  rw [hes]
  exact countDay_fill days hnd pw es₀ d hd hle

theorem weeks_complete_unique_witness : countDay c1w_bucket "MONTAG" = 1 :=
  weeks_complete_unique days_config [] ⟨"01.04.2024", "Montag", "x", none⟩
    (c1w_rows.drop 1) [(1, c1w_bucket)] [] (by decide) (by decide) (by decide)
    (1, c1w_bucket) (by decide) "MONTAG" (by decide)

/-- C2 counterexample: the substitution phase does NOT leave `weeks_data`
unchanged — processing a bucket whose Monday content contains the school
marker overwrites that entry's `Art` field in place (source line 133
writes through the dict reference obtained from the bucket). -/
theorem weeks_data_mutation_cex :
    (initialize_weeks_data days_config activitys_config c2_rows).map Prod.fst =
      some c2_wd ∧
    (process_all_weeks [("default_hours", "8")] days_config "01.04.2024" 1 c2_wd).map
        Prod.snd = some c2_wd' ∧
    c2_wd' ≠ c2_wd :=
  ⟨by decide, by decide, by decide⟩

/-- C2 (amended): the substitution phase preserves the key order, the day
names and the `Inhalt` fields of every bucket; an entry's `Art` field is
either unchanged or — when its content contains the school marker —
overwritten with the override literal.  Only that in-place `Art`
overwrite escapes into `weeks_data`; everything else mutates only the
external document. -/
theorem weeks_data_frame (settings : Settings) (days : List String)
    (first_date : String) (cells : Nat) (wd wd' : WeeksData)
    (h : (process_all_weeks settings days first_date cells wd).map Prod.snd = some wd') :
    weeksSim wd wd' := by
  cases hp : process_all_weeks settings days first_date cells wd with
  | none => rw [hp] at h; exact absurd h (by simp)
  | some p =>
    rw [hp] at h
    simp only [Option.map_some', Option.some.injEq] at h
    rw [← h]
    exact process_all_weeks_sim settings days first_date cells wd p.1 p.2
      (by rw [hp])

theorem weeks_data_frame_witness : weeksSim c2_wd c2_wd' :=
  weeks_data_frame [("default_hours", "8")] days_config "01.04.2024" 1 c2_wd c2_wd'
    (by decide)

/-- C7 counterexample: `process_all_weeks` visits buckets in dict
insertion order, which is the order of first appearance in the input —
for a table whose second row belongs to an earlier week, the visit order
is `[1, 0]`, not strictly increasing. -/
theorem process_order_cex :
    (initialize_weeks_data days_config activitys_config c7_rows).map
        (fun p => process_order p.1) = some [1, 0] ∧
    ¬ List.Pairwise (fun a b : Int => a < b) [1, 0] :=
  ⟨by decide, by decide⟩

/-- C7 (amended): `process_all_weeks` visits the buckets in order of first
appearance of each relative week in the input; when the rows' relative
weeks are nondecreasing, that order is strictly increasing. -/
theorem process_order_increasing (days : List String)
    (activitys : List (String × String)) (r0 : Row) (rs : List Row)
    (wd : WeeksData) (lg : List LogEvent)
    (hinit : initialize_weeks_data days activitys (r0 :: rs) = some (wd, lg))
    (hsorted : List.Pairwise (· ≤ ·)
      ((r0 :: rs).map (relWeekRow (get_week r0.datum).1))) :
    List.Pairwise (fun a b : Int => a < b) (process_order wd) := by
  rw [initialize_eq] at hinit
  simp only [Option.some.injEq] at hinit
  obtain ⟨hwd, -⟩ := Prod.mk.inj hinit
  subst hwd
  unfold process_order
  rw [keys_fill]
  unfold aggregate
  exact keys_sorted_fold activitys _ (r0 :: rs) ([], []) hsorted (by simp) (by simp)

theorem process_order_increasing_witness :
    List.Pairwise (fun a b : Int => a < b) (process_order c7w_wd) :=
  process_order_increasing ["MONTAG"] [] ⟨"01.04.2024", "Montag", "x", none⟩
    [⟨"08.04.2024", "Montag", "y", none⟩] c7w_wd [] (by decide) (by decide)

/-- C8 counterexample: the claim quantifies over every non-negative week
offset, but offsets that push the window past year 9999 make the code
raise `OverflowError` (modelled `none`) instead of returning a pair. -/
theorem calculate_week_range_cex :
    calculate_week_range "01.04.2024" 500000 = none ∧
    (parseDate "01.04.2024").isSome ∧
    (0 : Int) ≤ 500000 :=
  ⟨by decide, by decide, by decide⟩

/-- C8 (amended): for every parseable start date and every week offset
whose window stays within the representable date range (years 1-9999),
the result is `(start, end)` with `start = first_date + 7·offset` days
and `end = start + 4` days, both rendered as `dd.mm.yyyy`; in particular
`("01.04.2024", 0) ↦ ("01.04.2024", "05.04.2024")`, and raising the
offset by 1 shifts both endpoints by exactly 7 days.  Offsets beyond the
representable range raise instead (see the counterexample). -/
theorem calculate_week_range_correct :
    (∀ (s : String) (d : Date) (k : Int), parseDate s = some d →
      1 ≤ toOrdinal d + 7 * k → toOrdinal d + 7 * k + 4 ≤ maxOrdinal →
      calculate_week_range s k =
        some (renderDate (fromOrdinal (toOrdinal d + 7 * k)),
          renderDate (fromOrdinal (toOrdinal d + 7 * k + 4)))) ∧
    calculate_week_range "01.04.2024" 0 = some ("01.04.2024", "05.04.2024") ∧
    calculate_week_range "01.04.2024" 1 = some ("08.04.2024", "12.04.2024") ∧
    (∀ (s : String) (d : Date) (k : Int), parseDate s = some d →
      1 ≤ toOrdinal d + 7 * k → toOrdinal d + 7 * k + 11 ≤ maxOrdinal →
      calculate_week_range s (k + 1) =
        some (renderDate (fromOrdinal (toOrdinal d + 7 * k + 7)),
          renderDate (fromOrdinal (toOrdinal d + 7 * k + 4 + 7)))) := by
  have main : ∀ (s : String) (d : Date) (k : Int), parseDate s = some d →
      1 ≤ toOrdinal d + 7 * k → toOrdinal d + 7 * k + 4 ≤ maxOrdinal →
      calculate_week_range s k =
        some (renderDate (fromOrdinal (toOrdinal d + 7 * k)),
          renderDate (fromOrdinal (toOrdinal d + 7 * k + 4))) := by
    intro s d k hparse h1 h2
    unfold calculate_week_range
    rw [hparse]
    simp only [maxOrdinal] at h1 h2 ⊢
    rw [if_pos (by omega), if_pos (by omega)]
  refine ⟨main, by decide, by decide, ?_⟩
  intro s d k hparse h1 h2
  have heq : toOrdinal d + 7 * (k + 1) = toOrdinal d + 7 * k + 7 := by ring
  have h := main s d (k + 1) hparse (by omega) (by omega)
  rw [heq] at h
  have heq2 : toOrdinal d + 7 * k + 7 + 4 = toOrdinal d + 7 * k + 4 + 7 := by ring
  rw [heq2] at h
  exact h

theorem calculate_week_range_correct_witness :
    calculate_week_range "01.04.2024" 3 =
      some (renderDate (fromOrdinal (toOrdinal ⟨2024, 4, 1⟩ + 7 * 2 + 7)),
        renderDate (fromOrdinal (toOrdinal ⟨2024, 4, 1⟩ + 7 * 2 + 4 + 7))) :=
  calculate_week_range_correct.2.2.2 "01.04.2024" ⟨2024, 4, 1⟩ 2 (by decide)
    (by decide) (by decide)

/-- C9 counterexample: a settings mapping without `default_hours` makes
the substitution phase raise `KeyError` (line 137 subscripts the mapping
directly, with no default) — the run does not complete, while the same
run with `default_hours` present succeeds. -/
theorem settings_missing_hours_cex :
    process_all_weeks [] days_config "01.04.2024" 1
        [(1, [⟨"MONTAG", ⟨"Entwicklung", ""⟩⟩])] = none ∧
    (process_all_weeks [("default_hours", "8")] days_config "01.04.2024" 1
        [(1, [⟨"MONTAG", ⟨"Entwicklung", ""⟩⟩])]).isSome :=
  ⟨by decide, by decide⟩

/-- C9 (amended): `name` and `year` fall back to the default `"N/A"` when
absent, and their absence never causes a failure — the substitution
phase succeeds for ANY settings mapping that binds `default_hours` (and
whose week ranges are representable).  `default_hours` has no default:
when it is absent, the first attempted day substitution raises and the
run fails. -/
theorem settings_defaults :
    (∀ (settings : Settings) (week : Int) (sd ed : String),
      pyLookup settings "name" = none →
      ("\x7bNAME\x7d", "N/A") ∈ general_placeholders settings week sd ed) ∧
    (∀ (settings : Settings) (week : Int) (sd ed : String),
      pyLookup settings "year" = none →
      ("\x7bABJ\x7d", "N/A") ∈ general_placeholders settings week sd ed) ∧
    (∀ (settings : Settings) (days : List String) (first_date : String)
        (cells : Nat) (wd : WeeksData) (hv : String),
      pyLookup settings "default_hours" = some hv →
      (∀ w ∈ process_order wd, (calculate_week_range first_date (w - 1)).isSome) →
      (process_all_weeks settings days first_date cells wd).isSome) ∧
    (∀ (settings : Settings) (first_date : String) (day : String)
        (drest : List String) (n : Nat) (w : Int) (es : List Entry)
        (rest : WeeksData) (rng : String × String),
      pyLookup settings "default_hours" = none →
      calculate_week_range first_date (w - 1) = some rng →
      process_all_weeks settings (day :: drest) first_date (n + 1)
        ((w, es) :: rest) = none) := by
  refine ⟨?_, ?_, ?_, ?_⟩
  · intro settings week sd ed h
    simp [general_placeholders, pyGet_of_lookup_none settings "name" "N/A" h]
  · intro settings week sd ed h
    simp [general_placeholders, pyGet_of_lookup_none settings "year" "N/A" h]
  · intro settings days first_date cells wd hv hl hcwr
    exact all_weeks_isSome settings days first_date cells hv hl wd hcwr
  · intro settings first_date day drest n w es rest rng hl hc
    exact all_weeks_fails_without_hours settings first_date hl day drest n w es rest
      rng hc

theorem settings_defaults_witness :
    ("\x7bNAME\x7d", "N/A") ∈ general_placeholders [("default_hours", "8")] 1 "a" "b" ∧
    (process_all_weeks [("default_hours", "8")] days_config "01.04.2024" 1
      [(1, [])]).isSome :=
  ⟨settings_defaults.1 [("default_hours", "8")] 1 "a" "b" (by decide),
    settings_defaults.2.2.1 [("default_hours", "8")] days_config "01.04.2024" 1
      [(1, [])] "8" (by decide) (by decide)⟩

end WeekDataProcessor
